import Mathlib

/-!
Shallow embedding of `src/renderers/dom/shared/hooks/ReactDOMInvalidARIAHook.js`.

The module validates the ARIA (accessibility) attribute names of a DOM element,
warning at most once per distinct authored name for the life of the process.
Stateful pieces are made explicit:

* the module-level `warnedProperties` object becomes a `WarnedCache` value
  (an association list with JavaScript-object update semantics: assignment
  overwrites an existing key in place, otherwise appends) threaded through
  every function;
* each `warning(false, template, args...)` call to the external sink becomes a
  `Diag` value appended to an emitted-diagnostics list (`Diag` records the
  template chosen and its name arguments; the stack addendum argument is an
  opaque external value and is not modelled);
* the external collaborators that are required from outside this source file
  (`DOMProperty.ATTRIBUTE_NAME_CHAR`, `validAriaProperties`,
  `isCustomComponent`) are abstracted into a `Cfg` record, with concrete
  spec-modelled instances provided for evaluation.

JavaScript strings are modelled as Lean `String`; `toLowerCase` and `slice`
are modelled character-wise on the underlying character list (the names
involved are ASCII, where the two agree).
-/

set_option maxHeartbeats 1000000

namespace ReactDOMInvalidARIAHook

/-- Modelled from the spec: the external collaborators of the validator that
live outside this source file.  `isAttrChar` is the character class
`DOMProperty.ATTRIBUTE_NAME_CHAR` interpolated into both regexes ("zero or
more attribute-name characters"); `validAria` is membership in the
KnownAttributeSet (`validAriaProperties.hasOwnProperty`), "an external, fixed
mapping of canonical accessibility attribute names"; `isCustomComponent` is
the CustomElementClassifier, a "pure function, no side effects". -/
structure Cfg where
  isAttrChar : Char → Bool
  validAria : String → Bool
  isCustomComponent : String → List String → Bool

/-- The module-level `warnedProperties = {}` object: a mapping from raw
attribute-name strings to a boolean marker, in insertion order. -/
abbrev WarnedCache := List (String × Bool)

/-- JavaScript property read `warnedProperties[name]` guarded by
`hasOwnProperty`: the value stored at the first (only) entry for `name`. -/
def WarnedCache.lookup : WarnedCache → String → Option Bool
  | [], _ => none
  | p :: rest, name => if p.1 = name then some p.2 else WarnedCache.lookup rest name

/-- JavaScript property write `warnedProperties[name] = v`: overwrite the
existing entry for `name` in place, otherwise append a new entry. -/
def WarnedCache.set : WarnedCache → String → Bool → WarnedCache
  | [], name, v => [(name, v)]
  | p :: rest, name, v =>
      if p.1 = name then (p.1, v) :: rest else p :: WarnedCache.set rest name v

/-- The guard of step 2a in `validateProperty`:
`hasOwnProperty.call(warnedProperties, name) && warnedProperties[name]`. -/
def warnedTrue (w : WarnedCache) (name : String) : Bool :=
  (WarnedCache.lookup w name).getD false

/-- Character-wise model of JavaScript `String.prototype.toLowerCase` (the
attribute names concerned are ASCII). -/
def lowerStr (s : String) : String := ⟨s.data.map Char.toLower⟩

/-- Model of JavaScript `name.slice(n)`: drop the first `n` characters. -/
def dropStr (n : Nat) (s : String) : String := ⟨s.data.drop n⟩

/-- The regex character class `[A-Z]` (ASCII uppercase). -/
def isAsciiUpper (c : Char) : Bool := decide ('A' ≤ c) && decide (c ≤ 'Z')

/-- Common shape of the two module regexes: four literal characters `aria`,
one fifth character satisfying `fifth`, then zero or more attribute-name
characters, anchored at both ends. -/
def rTestWith (cfg : Cfg) (fifth : Char → Bool) : List Char → Bool
  | c0 :: c1 :: c2 :: c3 :: c4 :: rest =>
      c0 == 'a' && c1 == 'r' && c2 == 'i' && c3 == 'a' && fifth c4 &&
        rest.all cfg.isAttrChar
  | _ => false

/-- `rARIACamel.test name` with
`rARIACamel = new RegExp('^(aria)[A-Z][' + ATTRIBUTE_NAME_CHAR + ']*$')`. -/
def rARIACamelTest (cfg : Cfg) (name : String) : Bool :=
  rTestWith cfg isAsciiUpper name.data

/-- `rARIA.test name` with
`rARIA = new RegExp('^(aria)-[' + ATTRIBUTE_NAME_CHAR + ']*$')`. -/
def rARIATest (cfg : Cfg) (name : String) : Bool :=
  rTestWith cfg (· == '-') name.data

/-- One call to the external `warning` sink, recording which message template
was chosen and its name arguments (the trailing stack addendum argument is an
opaque external string and is not recorded). -/
inductive Diag where
  /-- Template: Invalid ARIA attribute backtick-name. ARIA attributes follow
  the pattern aria-* and must be lowercase. -/
  | invalidARIAAttribute (name : String)
  /-- Template: Invalid ARIA attribute backtick-name. Did you mean
  backtick-correctName? (camel-case branch). -/
  | invalidARIADidYouMean (name correctName : String)
  /-- Template: Unknown ARIA attribute backtick-name. Did you mean
  backtick-standardName? (hyphenated branch). -/
  | unknownARIADidYouMean (name standardName : String)
  /-- Template: Invalid aria prop(s) unknownPropString on tag. The `plural`
  flag tells the singular template from the plural one. -/
  | invalidAriaPropsOnTag (invalidProps : List String) (type : String) (plural : Bool)
deriving DecidableEq

/-- The attribute names a diagnostic cites as offending: the authored name
for the per-name templates, the collected list for the batched template
(suggested replacements are not offending names). -/
def Diag.cites : Diag → List String
  | .invalidARIAAttribute name => [name]
  | .invalidARIADidYouMean name _ => [name]
  | .unknownARIADidYouMean name _ => [name]
  | .invalidAriaPropsOnTag invalidProps _ _ => invalidProps

/-- Whether a diagnostic is the batched per-element report of
`warnInvalidARIAProps` (as opposed to a per-name report). -/
def Diag.isBatch : Diag → Bool
  | .invalidAriaPropsOnTag _ _ _ => true
  | _ => false

/-- `invalidProps.map(prop => '`' + prop + '`').join(', ')` from
`warnInvalidARIAProps`. -/
def unknownPropString (invalidProps : List String) : String :=
  String.intercalate ", " (invalidProps.map (fun prop => "`" ++ prop ++ "`"))

/-- The formatted message each template produces, stack addendum omitted. -/
def Diag.message : Diag → String
  | .invalidARIAAttribute name =>
      "Invalid ARIA attribute `" ++ name ++
        "`. ARIA attributes follow the pattern aria-* and must be lowercase."
  | .invalidARIADidYouMean name correctName =>
      "Invalid ARIA attribute `" ++ name ++ "`. Did you mean `" ++ correctName ++ "`?"
  | .unknownARIADidYouMean name standardName =>
      "Unknown ARIA attribute `" ++ name ++ "`. Did you mean `" ++ standardName ++ "`?"
  | .invalidAriaPropsOnTag invalidProps type plural =>
      "Invalid aria prop" ++ (if plural then "s " else " ") ++
        unknownPropString invalidProps ++ " on <" ++ type ++
        "> tag. For details, see https://fb.me/invalid-aria-prop"

/-- Result of one `validateProperty` call: its boolean return value, the
`warnedProperties` object afterwards, and the diagnostics it emitted. -/
structure VPResult where
  isValid : Bool
  cache : WarnedCache
  diags : List Diag
deriving DecidableEq

/-- The tail of `validateProperty` from `if (rARIA.test(name))` on: compute
`lowerCasedName = name.toLowerCase()`; if it is not a known ARIA property,
mark the name warned and return `false` (collect for the batched report); if
it is known but differs from the authored name, warn with the lowercase
suggestion, mark and return `true`; otherwise (exact canonical match, or the
regex did not match) return `true` unchanged. -/
def hyphenStep (cfg : Cfg) (name : String) (w : WarnedCache) : VPResult :=
  if rARIATest cfg name then
    let lowerCasedName := lowerStr name
    if cfg.validAria lowerCasedName then
      if name ≠ lowerCasedName then
        ⟨true, w.set name true, [.unknownARIADidYouMean name lowerCasedName]⟩
      else ⟨true, w, []⟩
    else ⟨false, w.set name true, []⟩
  else ⟨true, w, []⟩

/-- `validateProperty(tagName, name, debugID)`.  Step 2a: if the name is in
`warnedProperties` with a true marker, return `true` at once.  Step 2b: if
the camel-case regex matches, derive `ariaName = 'aria-' +
name.slice(4).toLowerCase()`; if that is unknown, warn "Invalid ARIA
attribute", mark and return `true`; if it is known but differs from the
authored name, warn with the suggestion, mark and return `true`; otherwise
fall through to the hyphenated test.  Step 2c is `hyphenStep`.  The `tagName`
parameter is accepted and unused, as in the source. -/
def validateProperty (cfg : Cfg) (tagName name : String) (w : WarnedCache) : VPResult :=
  if warnedTrue w name then ⟨true, w, []⟩
  else if rARIACamelTest cfg name then
    let ariaName := "aria-" ++ lowerStr (dropStr 4 name)
    if cfg.validAria ariaName then
      if name ≠ ariaName then
        ⟨true, w.set name true, [.invalidARIADidYouMean name ariaName]⟩
      else hyphenStep cfg name w
    else ⟨true, w.set name true, [.invalidARIAAttribute name]⟩
  else hyphenStep cfg name w

/-- The `for (var key in props)` loop of `warnInvalidARIAProps`: run
`validateProperty` on each key in order, threading the cache, collecting the
keys for which it returned `false` (first-seen order) and concatenating the
emitted diagnostics. -/
def scanProps (cfg : Cfg) (type : String) :
    List String → WarnedCache → List String × WarnedCache × List Diag
  | [], w => ([], w, [])
  | key :: rest, w =>
      let r := validateProperty cfg type key w
      let s := scanProps cfg type rest r.cache
      ((if r.isValid then s.1 else key :: s.1), s.2.1, r.diags ++ s.2.2)

/-- `warnInvalidARIAProps(type, props, debugID)`: scan all keys, then emit
the batched report — the singular template when exactly one key was
collected, the plural template when more than one, nothing when none. -/
def warnInvalidARIAProps (cfg : Cfg) (type : String) (props : List String)
    (w : WarnedCache) : WarnedCache × List Diag :=
  let s := scanProps cfg type props w
  if s.1.length = 1 then
    (s.2.1, s.2.2 ++ [.invalidAriaPropsOnTag s.1 type false])
  else if s.1.length > 1 then
    (s.2.1, s.2.2 ++ [.invalidAriaPropsOnTag s.1 type true])
  else (s.2.1, s.2.2)

/-- `validateProperties(type, props, debugID)`: return at once when
`isCustomComponent(type, props)` holds, otherwise run
`warnInvalidARIAProps`. -/
def validateProperties (cfg : Cfg) (type : String) (props : List String)
    (w : WarnedCache) : WarnedCache × List Diag :=
  if cfg.isCustomComponent type props then (w, [])
  else warnInvalidARIAProps cfg type props w

/-- The `type` field of a React element as the hook inspects it:
`typeof element.type === 'string'` holds exactly for `str`, every non-string
component type (e.g. a composite component class) is collapsed to `other`. -/
inductive ElemType where
  | str (s : String)
  | other
deriving DecidableEq

/-- The part of a React element the hook reads: its `type` and the key set
of its `props`. -/
structure ReactElement where
  type : ElemType
  props : List String

/-- Stack-mode hook `onBeforeMountComponent(debugID, element)`: validate only
when the element is non-null and its `type` is a string (the `__DEV__` guard
is true in the development build modelled here). -/
def onBeforeMountComponent (cfg : Cfg) (element : Option ReactElement)
    (w : WarnedCache) : WarnedCache × List Diag :=
  match element with
  | some el =>
      match el.type with
      | .str s => validateProperties cfg s el.props w
      | .other => (w, [])
  | none => (w, [])

/-- Stack-mode hook `onBeforeUpdateComponent(debugID, element)`: same body as
`onBeforeMountComponent`. -/
def onBeforeUpdateComponent (cfg : Cfg) (element : Option ReactElement)
    (w : WarnedCache) : WarnedCache × List Diag :=
  match element with
  | some el =>
      match el.type with
      | .str s => validateProperties cfg s el.props w
      | .other => (w, [])
  | none => (w, [])

/-- A process lifetime: a sequence of `validate` calls (tag name and property
keys) starting from the given cache, accumulating all emitted diagnostics. -/
def runCalls (cfg : Cfg) : List (String × List String) → WarnedCache → WarnedCache × List Diag
  | [], w => (w, [])
  | c :: rest, w =>
      let r1 := validateProperties cfg c.1 c.2 w
      let r2 := runCalls cfg rest r1.1
      (r2.1, r1.2 ++ r2.2)

/-- How many of the diagnostics in `ds` cite `n` as an offending name. -/
def citesCount (n : String) (ds : List Diag) : Nat :=
  (ds.filter (fun d => d.cites.contains n)).length

/-- A name is collected for the batched report exactly when it is not yet
warned, matches the hyphenated regex, and its lowercased form is unknown. -/
def collectible (cfg : Cfg) (w : WarnedCache) (n : String) : Bool :=
  !warnedTrue w n && rARIATest cfg n && !cfg.validAria (lowerStr n)

/-- The list of names a scan of `props` starting from cache `w` collects for
the batched report: the collectible names in first-seen order, each marked
warned as soon as it is taken so that a repeated key is taken only once. -/
def collectedSpec (cfg : Cfg) : List String → WarnedCache → List String
  | [], _ => []
  | k :: rest, w =>
      if collectible cfg w k then k :: collectedSpec cfg rest (w.set k true)
      else collectedSpec cfg rest w

/-- Modelled from the spec: a concrete instance of the attribute-name
character class (the external `DOMProperty.ATTRIBUTE_NAME_CHAR` is not part
of this source file) — letters, digits, hyphen, underscore, colon, dot. -/
def specAttrChar (c : Char) : Bool :=
  c.isAlphanum || c == '-' || c == '_' || c == ':' || c == '.'

/-- Modelled from the spec: a concrete KnownAttributeSet (the external
`validAriaProperties` module is not part of this source file) — "a fixed
list of recognized accessibility attribute names (e.g. aria-label,
aria-hidden)". -/
def validAriaProperties : List String :=
  ["aria-label", "aria-hidden", "aria-checked", "aria-expanded"]

/-- Modelled from the spec: a concrete CustomElementClassifier (the external
`isCustomComponent` module is not part of this source file) — "an element
whose tag/property shape marks it as author-defined", here a hyphenated tag
name. -/
def specIsCustom (tagName : String) (_props : List String) : Bool :=
  tagName.data.contains '-'

/-- The concrete configuration used to evaluate the model on inputs. -/
def specCfg : Cfg :=
  { isAttrChar := specAttrChar
    validAria := fun n => validAriaProperties.contains n
    isCustomComponent := specIsCustom }

/-! ### Lemmas about the warned-properties cache -/

theorem lookup_set (w : WarnedCache) (n m : String) (v : Bool) :
    (w.set n v).lookup m = if n = m then some v else w.lookup m := by
  induction w with
  | nil =>
      simp only [WarnedCache.set, WarnedCache.lookup]
  | cons p rest ih =>
      by_cases hp : p.1 = n
      · have hset : WarnedCache.set (p :: rest) n v = (p.1, v) :: rest := by
          simp [WarnedCache.set, hp]
        rw [hset]
        simp only [WarnedCache.lookup, hp]
        by_cases hnm : n = m <;> simp [hnm]
      · have hset : WarnedCache.set (p :: rest) n v = p :: WarnedCache.set rest n v := by
          simp [WarnedCache.set, hp]
        rw [hset]
        simp only [WarnedCache.lookup, ih]
        by_cases hm : p.1 = m
        · have : ¬n = m := fun hn => hp (hm.trans hn.symm)
          simp [hm, this]
        · simp [hm]

theorem warnedTrue_set_self (w : WarnedCache) (n : String) :
    warnedTrue (w.set n true) n = true := by
  simp [warnedTrue, lookup_set]

theorem warnedTrue_set_other (w : WarnedCache) (n m : String) (v : Bool) (h : n ≠ m) :
    warnedTrue (w.set n v) m = warnedTrue w m := by
  simp [warnedTrue, lookup_set, h]

theorem warnedTrue_set_mono (w : WarnedCache) (n m : String)
    (h : warnedTrue w m = true) : warnedTrue (w.set n true) m = true := by
  by_cases hnm : n = m
  · subst hnm; exact warnedTrue_set_self w n
  · rw [warnedTrue_set_other w n m true hnm]; exact h

theorem set_true_of_allTrue (w : WarnedCache) (n : String)
    (h : ∀ p ∈ w, p.2 = true) :
    w.set n true = w ∨ w.set n true = w ++ [(n, true)] := by
  induction w with
  | nil => right; rfl
  | cons p rest ih =>
      by_cases hp : p.1 = n
      · left
        have hv : p.2 = true := h p (List.mem_cons_self p rest)
        have hset : WarnedCache.set (p :: rest) n true = (p.1, true) :: rest := by
          simp [WarnedCache.set, hp]
        rw [hset, ← hv]
      · have hset : WarnedCache.set (p :: rest) n true = p :: WarnedCache.set rest n true := by
          simp [WarnedCache.set, hp]
        have hrest : ∀ q ∈ rest, q.2 = true := fun q hq => h q (List.mem_cons_of_mem p hq)
        rcases ih hrest with h1 | h1
        · left; rw [hset, h1]
        · right; rw [hset, h1, List.cons_append]

theorem allTrue_set_true (w : WarnedCache) (n : String)
    (h : ∀ p ∈ w, p.2 = true) : ∀ p ∈ w.set n true, p.2 = true := by
  induction w with
  | nil =>
      intro p hp
      simp only [WarnedCache.set, List.mem_singleton] at hp
      rw [hp]
  | cons q rest ih =>
      intro p hp
      by_cases hq : q.1 = n
      · have hset : WarnedCache.set (q :: rest) n true = (q.1, true) :: rest := by
          simp [WarnedCache.set, hq]
        rw [hset] at hp
        rcases List.mem_cons.mp hp with hp | hp
        · rw [hp]
        · exact h p (List.mem_cons_of_mem q hp)
      · have hset : WarnedCache.set (q :: rest) n true = q :: WarnedCache.set rest n true := by
          simp [WarnedCache.set, hq]
        rw [hset] at hp
        rcases List.mem_cons.mp hp with hp | hp
        · rw [hp]; exact h q (List.mem_cons_self q rest)
        · exact ih (fun r hr => h r (List.mem_cons_of_mem q hr)) p hp

theorem warnedTrue_eq_isSome_of_allTrue (w : WarnedCache) (n : String)
    (h : ∀ p ∈ w, p.2 = true) :
    warnedTrue w n = (WarnedCache.lookup w n).isSome := by
  induction w with
  | nil => rfl
  | cons p rest ih =>
      by_cases hp : p.1 = n
      · have hv : p.2 = true := h p (List.mem_cons_self p rest)
        simp [warnedTrue, WarnedCache.lookup, hp, hv]
      · have hrest : ∀ q ∈ rest, q.2 = true := fun q hq => h q (List.mem_cons_of_mem p hq)
        simp only [warnedTrue, WarnedCache.lookup, hp, if_neg]
        exact ih hrest

/-! ### Lemmas about the two regular expressions -/

theorem rTestWith_shape (cfg : Cfg) (fifth : Char → Bool) (l : List Char)
    (h : rTestWith cfg fifth l = true) :
    ∃ c4 rest, l = 'a' :: 'r' :: 'i' :: 'a' :: c4 :: rest ∧ fifth c4 = true := by
  rcases l with _ | ⟨c0, _ | ⟨c1, _ | ⟨c2, _ | ⟨c3, _ | ⟨c4, rest⟩⟩⟩⟩⟩ <;>
    simp only [rTestWith, Bool.and_eq_true, beq_iff_eq] at h
  · exact absurd h (by simp)
  · exact absurd h (by simp)
  · exact absurd h (by simp)
  · exact absurd h (by simp)
  · exact absurd h (by simp)
  · obtain ⟨⟨⟨⟨⟨h0, h1⟩, h2⟩, h3⟩, h4⟩, _⟩ := h
    subst h0; subst h1; subst h2; subst h3
    exact ⟨c4, rest, rfl, h4⟩

theorem camel_eq_false_of_rARIATest (cfg : Cfg) (name : String)
    (h : rARIATest cfg name = true) : rARIACamelTest cfg name = false := by
  by_contra hc
  rw [Bool.not_eq_false] at hc
  obtain ⟨c4, rest, hl, hf⟩ := rTestWith_shape cfg _ name.data h
  obtain ⟨c4', rest', hl', hf'⟩ := rTestWith_shape cfg _ name.data hc
  rw [hl] at hl'
  have hc4 : c4 = c4' := by
    simpa using congrArg (fun l => l.get? 4) hl'
  rw [beq_iff_eq] at hf
  rw [← hc4, hf] at hf'
  exact absurd hf' (by decide)

theorem rARIATest_eq_false_of_camel (cfg : Cfg) (name : String)
    (h : rARIACamelTest cfg name = true) : rARIATest cfg name = false := by
  by_contra hc
  rw [Bool.not_eq_false] at hc
  rw [camel_eq_false_of_rARIATest cfg name hc] at h
  exact absurd h (by simp)

/-! ### Lemmas about validateProperty -/

theorem validateProperty_warned (cfg : Cfg) (t name : String) (w : WarnedCache)
    (h : warnedTrue w name = true) : validateProperty cfg t name w = ⟨true, w, []⟩ := by
  simp [validateProperty, h]

theorem validateProperty_cases (cfg : Cfg) (t name : String) (w : WarnedCache) :
    validateProperty cfg t name w = ⟨true, w, []⟩ ∨
    validateProperty cfg t name w =
      ⟨true, w.set name true, [Diag.invalidARIAAttribute name]⟩ ∨
    validateProperty cfg t name w =
      ⟨true, w.set name true,
        [Diag.invalidARIADidYouMean name ("aria-" ++ lowerStr (dropStr 4 name))]⟩ ∨
    validateProperty cfg t name w =
      ⟨true, w.set name true, [Diag.unknownARIADidYouMean name (lowerStr name)]⟩ ∨
    validateProperty cfg t name w = ⟨false, w.set name true, []⟩ := by
  simp only [validateProperty, hyphenStep]
  split_ifs <;> simp

theorem validateProperty_diags_cites (cfg : Cfg) (t name : String) (w : WarnedCache) :
    ∀ d ∈ (validateProperty cfg t name w).diags, d.cites = [name] := by
  rcases validateProperty_cases cfg t name w with h | h | h | h | h <;>
    rw [h] <;> simp [Diag.cites]

theorem validateProperty_diags_not_batch (cfg : Cfg) (t name : String) (w : WarnedCache) :
    ∀ d ∈ (validateProperty cfg t name w).diags, d.isBatch = false := by
  rcases validateProperty_cases cfg t name w with h | h | h | h | h <;>
    rw [h] <;> simp [Diag.isBatch]

theorem validateProperty_diags_len (cfg : Cfg) (t name : String) (w : WarnedCache) :
    (validateProperty cfg t name w).diags.length ≤ 1 := by
  rcases validateProperty_cases cfg t name w with h | h | h | h | h <;> rw [h] <;> simp

theorem validateProperty_mark (cfg : Cfg) (t name : String) (w : WarnedCache)
    (h : (validateProperty cfg t name w).diags ≠ [] ∨
      (validateProperty cfg t name w).isValid = false) :
    warnedTrue (validateProperty cfg t name w).cache name = true := by
  rcases validateProperty_cases cfg t name w with hc | hc | hc | hc | hc <;> rw [hc] <;>
    first
      | (exact warnedTrue_set_self w name)
      | (rw [hc] at h; simp at h)

theorem validateProperty_mono (cfg : Cfg) (t name : String) (w : WarnedCache) (m : String)
    (h : warnedTrue w m = true) :
    warnedTrue (validateProperty cfg t name w).cache m = true := by
  rcases validateProperty_cases cfg t name w with hc | hc | hc | hc | hc <;> rw [hc] <;>
    first
      | exact h
      | exact warnedTrue_set_mono w name m h

theorem validateProperty_cache_id (cfg : Cfg) (t name : String) (w : WarnedCache)
    (h1 : (validateProperty cfg t name w).diags = [])
    (h2 : (validateProperty cfg t name w).isValid = true) :
    (validateProperty cfg t name w).cache = w := by
  rcases validateProperty_cases cfg t name w with hc | hc | hc | hc | hc <;> rw [hc] <;>
    rw [hc] at h1 h2 <;> simp_all

theorem validateProperty_collect (cfg : Cfg) (t name : String) (w : WarnedCache)
    (h1 : warnedTrue w name = false) (h2 : rARIATest cfg name = true)
    (h3 : cfg.validAria (lowerStr name) = false) :
    validateProperty cfg t name w = ⟨false, w.set name true, []⟩ := by
  have hcam : rARIACamelTest cfg name = false := camel_eq_false_of_rARIATest cfg name h2
  simp [validateProperty, hyphenStep, h1, h2, h3, hcam]

theorem validateProperty_camelUnknown (cfg : Cfg) (t name : String) (w : WarnedCache)
    (h1 : warnedTrue w name = false) (h2 : rARIACamelTest cfg name = true)
    (h3 : cfg.validAria ("aria-" ++ lowerStr (dropStr 4 name)) = false) :
    validateProperty cfg t name w =
      ⟨true, w.set name true, [Diag.invalidARIAAttribute name]⟩ := by
  simp [validateProperty, h1, h2, h3]

theorem validateProperty_hyphenSuggest (cfg : Cfg) (t name : String) (w : WarnedCache)
    (h1 : warnedTrue w name = false) (h2 : rARIATest cfg name = true)
    (h3 : cfg.validAria (lowerStr name) = true) (h4 : lowerStr name ≠ name) :
    validateProperty cfg t name w =
      ⟨true, w.set name true, [Diag.unknownARIADidYouMean name (lowerStr name)]⟩ := by
  have hcam : rARIACamelTest cfg name = false := camel_eq_false_of_rARIATest cfg name h2
  have h4' : name ≠ lowerStr name := fun he => h4 he.symm
  simp [validateProperty, hyphenStep, h1, h2, h3, h4', hcam]

theorem validateProperty_noPattern (cfg : Cfg) (t name : String) (w : WarnedCache)
    (h1 : rARIACamelTest cfg name = false) (h2 : rARIATest cfg name = false) :
    validateProperty cfg t name w = ⟨true, w, []⟩ := by
  by_cases hw : warnedTrue w name <;>
    simp [validateProperty, hyphenStep, hw, h1, h2]

theorem validateProperty_canonical (cfg : Cfg) (t name : String) (w : WarnedCache)
    (h2 : rARIATest cfg name = true) (h3 : cfg.validAria name = true)
    (h4 : lowerStr name = name) :
    validateProperty cfg t name w = ⟨true, w, []⟩ := by
  have hcam : rARIACamelTest cfg name = false := camel_eq_false_of_rARIATest cfg name h2
  by_cases hw : warnedTrue w name
  · simp [validateProperty, hw]
  · simp [validateProperty, hyphenStep, hw, hcam, h2, h4, h3]

theorem validateProperty_isValid_false_iff (cfg : Cfg) (t name : String) (w : WarnedCache) :
    (validateProperty cfg t name w).isValid = false ↔ collectible cfg w name = true := by
  by_cases hw : warnedTrue w name
  · simp [validateProperty, hw, collectible]
  · rw [Bool.not_eq_true] at hw
    by_cases hc : rARIACamelTest cfg name
    · have haria : rARIATest cfg name = false := rARIATest_eq_false_of_camel cfg name hc
      by_cases hv : cfg.validAria ("aria-" ++ lowerStr (dropStr 4 name))
      · by_cases hne : name = "aria-" ++ lowerStr (dropStr 4 name)
        · have hv' : cfg.validAria name = true := by rw [hne]; exact hv
          simp [validateProperty, hyphenStep, hw, hc, hv', ← hne, collectible, haria]
        · simp [validateProperty, hw, hc, hv, hne, collectible, haria]
      · simp [validateProperty, hw, hc, hv, collectible, haria]
    · by_cases ha : rARIATest cfg name
      · by_cases hv : cfg.validAria (lowerStr name)
        · by_cases hne : name = lowerStr name
          · have hv' : cfg.validAria name = true := by rw [hne]; exact hv
            simp [validateProperty, hyphenStep, hw, hc, ha, ← hne, hv', collectible]
          · simp [validateProperty, hyphenStep, hw, hc, ha, hv, hne, collectible]
        · simp [validateProperty, hyphenStep, hw, hc, ha, hv, collectible]
      · simp [validateProperty, hyphenStep, hw, hc, ha, collectible]

theorem collectible_set_stable (cfg : Cfg) (w : WarnedCache) (k : String)
    (h : collectible cfg w k = false) (m : String) :
    collectible cfg (w.set k true) m = collectible cfg w m := by
  by_cases hkm : k = m
  · subst hkm
    have hl : collectible cfg (w.set k true) k = false := by
      simp [collectible, warnedTrue_set_self]
    rw [hl, h]
  · simp [collectible, warnedTrue_set_other w k m true hkm]

theorem validateProperty_collectible_stable (cfg : Cfg) (t k : String) (w : WarnedCache)
    (h : (validateProperty cfg t k w).isValid = true) (m : String) :
    collectible cfg (validateProperty cfg t k w).cache m = collectible cfg w m := by
  have hcoll : collectible cfg w k = false := by
    by_contra hcc
    rw [Bool.not_eq_false] at hcc
    rw [(validateProperty_isValid_false_iff cfg t k w).mpr hcc] at h
    exact absurd h (by simp)
  rcases validateProperty_cases cfg t k w with hc | hc | hc | hc | hc <;> rw [hc] <;>
    first
      | rfl
      | exact collectible_set_stable cfg w k hcoll m

/-! ### Lemmas about the scan loop -/

theorem validateProperty_false_shape (cfg : Cfg) (t name : String) (w : WarnedCache)
    (h : (validateProperty cfg t name w).isValid = false) :
    validateProperty cfg t name w = ⟨false, w.set name true, []⟩ := by
  rcases validateProperty_cases cfg t name w with hc | hc | hc | hc | hc <;>
    first
      | exact hc
      | (rw [hc] at h; exact absurd h (by simp))

theorem scanProps_nil (cfg : Cfg) (t : String) (w : WarnedCache) :
    scanProps cfg t [] w = ([], w, []) := rfl

theorem scanProps_cons (cfg : Cfg) (t key : String) (rest : List String) (w : WarnedCache) :
    scanProps cfg t (key :: rest) w =
      ((if (validateProperty cfg t key w).isValid
          then (scanProps cfg t rest (validateProperty cfg t key w).cache).1
          else key :: (scanProps cfg t rest (validateProperty cfg t key w).cache).1),
        (scanProps cfg t rest (validateProperty cfg t key w).cache).2.1,
        (validateProperty cfg t key w).diags ++
          (scanProps cfg t rest (validateProperty cfg t key w).cache).2.2) := rfl

theorem citesCount_append (n : String) (ds1 ds2 : List Diag) :
    citesCount n (ds1 ++ ds2) = citesCount n ds1 + citesCount n ds2 := by
  simp [citesCount, List.filter_append]

theorem citesCount_le_length (n : String) (ds : List Diag) :
    citesCount n ds ≤ ds.length :=
  List.length_filter_le _ _

theorem citesCount_eq_zero (n : String) (ds : List Diag)
    (h : ∀ d ∈ ds, d.cites.contains n = false) : citesCount n ds = 0 := by
  simp only [citesCount, List.length_eq_zero, List.filter_eq_nil_iff]
  intro d hd
  simpa using h d hd

theorem scanProps_diags_not_batch (cfg : Cfg) (t : String) :
    ∀ (props : List String) (w : WarnedCache),
      ∀ d ∈ (scanProps cfg t props w).2.2, d.isBatch = false
  | [], w => by simp [scanProps_nil]
  | key :: rest, w => by
      intro d hd
      rw [scanProps_cons] at hd
      rcases List.mem_append.mp hd with hd | hd
      · exact validateProperty_diags_not_batch cfg t key w d hd
      · exact scanProps_diags_not_batch cfg t rest _ d hd

theorem scanProps_mono (cfg : Cfg) (t : String) :
    ∀ (props : List String) (w : WarnedCache) (m : String),
      warnedTrue w m = true → warnedTrue (scanProps cfg t props w).2.1 m = true
  | [], w, m => fun h => by simpa [scanProps_nil] using h
  | key :: rest, w, m => fun h => by
      rw [scanProps_cons]
      exact scanProps_mono cfg t rest _ m (validateProperty_mono cfg t key w m h)

theorem scanProps_charge (cfg : Cfg) (t n : String) :
    ∀ (props : List String) (w : WarnedCache),
      (citesCount n (scanProps cfg t props w).2.2 + (scanProps cfg t props w).1.count n ≤ 1) ∧
      (1 ≤ citesCount n (scanProps cfg t props w).2.2 + (scanProps cfg t props w).1.count n →
        warnedTrue (scanProps cfg t props w).2.1 n = true) ∧
      (warnedTrue w n = true →
        citesCount n (scanProps cfg t props w).2.2 = 0 ∧
          (scanProps cfg t props w).1.count n = 0)
  | [], w => by simp [scanProps_nil, citesCount]
  | key :: rest, w => by
      have IH := fun w' => scanProps_charge cfg t n rest w'
      rw [scanProps_cons]
      by_cases hkn : key = n
      · subst hkn
        by_cases hw : warnedTrue w key = true
        · rw [validateProperty_warned cfg t key w hw]
          simp only [citesCount_append]
          have h0 : citesCount key (VPResult.mk true w []).diags = 0 := by
            simp [citesCount]
          refine ⟨?_, ?_, ?_⟩
          · simpa [h0] using (IH w).1
          · intro h1
            exact (IH w).2.1 (by simpa [h0] using h1)
          · intro _
            exact ⟨by simpa [h0] using ((IH w).2.2 hw).1, by
              simpa using ((IH w).2.2 hw).2⟩
        · rw [Bool.not_eq_true] at hw
          by_cases hval : (validateProperty cfg t key w).isValid = true
          · by_cases hd : (validateProperty cfg t key w).diags = []
            · have hcache : (validateProperty cfg t key w).cache = w :=
                validateProperty_cache_id cfg t key w hd hval
              rw [hval, hcache, hd, if_pos rfl]
              simp only [citesCount_append, List.nil_append]
              have h0 : citesCount key ([] : List Diag) = 0 := rfl
              refine ⟨?_, ?_, ?_⟩
              · simpa [h0] using (IH w).1
              · intro h1
                exact (IH w).2.1 (by simpa [h0] using h1)
              · intro hcontra
                rw [hcontra] at hw
                exact absurd hw (by simp)
            · have hwarn : warnedTrue (validateProperty cfg t key w).cache key = true :=
                validateProperty_mark cfg t key w (Or.inl hd)
              have hrest := (IH (validateProperty cfg t key w).cache).2.2 hwarn
              rw [hval, if_pos rfl]
              simp only [citesCount_append]
              have hle : citesCount key (validateProperty cfg t key w).diags ≤ 1 :=
                le_trans (citesCount_le_length _ _) (validateProperty_diags_len cfg t key w)
              refine ⟨?_, ?_, ?_⟩
              · rw [hrest.1, hrest.2]
                omega
              · intro _
                exact scanProps_mono cfg t rest _ key hwarn
              · intro hcontra
                rw [hcontra] at hw
                exact absurd hw (by simp)
          · rw [Bool.not_eq_true] at hval
            have hshape := validateProperty_false_shape cfg t key w hval
            have hwarn : warnedTrue (validateProperty cfg t key w).cache key = true := by
              rw [hshape]
              exact warnedTrue_set_self w key
            have hrest := (IH (validateProperty cfg t key w).cache).2.2 hwarn
            rw [hval]
            simp only [citesCount_append, if_neg Bool.false_ne_true]
            have h0 : citesCount key (validateProperty cfg t key w).diags = 0 := by
              rw [hshape]
              rfl
            refine ⟨?_, ?_, ?_⟩
            · rw [h0, hrest.1, List.count_cons, hrest.2]
              simp
            · intro _
              exact scanProps_mono cfg t rest _ key hwarn
            · intro hcontra
              rw [hcontra] at hw
              exact absurd hw (by simp)
      · have hcit : citesCount n (validateProperty cfg t key w).diags = 0 := by
          refine citesCount_eq_zero n _ (fun d hd => ?_)
          rw [validateProperty_diags_cites cfg t key w d hd]
          have hnk : ¬n = key := fun h => hkn h.symm
          simpa using hnk
        have hinv : (if (validateProperty cfg t key w).isValid
            then (scanProps cfg t rest (validateProperty cfg t key w).cache).1
            else key :: (scanProps cfg t rest (validateProperty cfg t key w).cache).1).count n =
            (scanProps cfg t rest (validateProperty cfg t key w).cache).1.count n := by
          by_cases hval : (validateProperty cfg t key w).isValid = true
          · rw [hval, if_pos rfl]
          · rw [Bool.not_eq_true] at hval
            rw [hval, if_neg Bool.false_ne_true, List.count_cons]
            simp [hkn]
        simp only [citesCount_append, hcit, hinv, Nat.zero_add]
        refine ⟨?_, ?_, ?_⟩
        · exact (IH _).1
        · exact (IH _).2.1
        · intro hwn
          exact (IH _).2.2 (validateProperty_mono cfg t key w n hwn)

/-! ### Per-call lemmas -/

theorem warnInvalidARIAProps_cache (cfg : Cfg) (t : String) (props : List String)
    (w : WarnedCache) :
    (warnInvalidARIAProps cfg t props w).1 = (scanProps cfg t props w).2.1 := by
  simp only [warnInvalidARIAProps]
  split_ifs <;> rfl

theorem warnInvalidARIAProps_diags (cfg : Cfg) (t : String) (props : List String)
    (w : WarnedCache) :
    (warnInvalidARIAProps cfg t props w).2 =
      (scanProps cfg t props w).2.2 ++
        (if (scanProps cfg t props w).1.length = 1 then
          [Diag.invalidAriaPropsOnTag (scanProps cfg t props w).1 t false]
         else if (scanProps cfg t props w).1.length > 1 then
          [Diag.invalidAriaPropsOnTag (scanProps cfg t props w).1 t true]
         else []) := by
  simp only [warnInvalidARIAProps]
  split_ifs <;> simp

theorem citesCount_singleton (n : String) (d : Diag) :
    citesCount n [d] = if d.cites.contains n = true then 1 else 0 := by
  by_cases h : n ∈ d.cites <;> simp [citesCount, List.elem_iff, h]

theorem count_pos_of_contains (n : String) (l : List String)
    (h : l.contains n = true) : 1 ≤ l.count n :=
  List.one_le_count_iff.mpr (List.elem_iff.mp h)

theorem batch_citesCount_le (cfg : Cfg) (t n : String) (props : List String)
    (w : WarnedCache) :
    citesCount n
      (if (scanProps cfg t props w).1.length = 1 then
        [Diag.invalidAriaPropsOnTag (scanProps cfg t props w).1 t false]
       else if (scanProps cfg t props w).1.length > 1 then
        [Diag.invalidAriaPropsOnTag (scanProps cfg t props w).1 t true]
       else []) ≤ (scanProps cfg t props w).1.count n := by
  split_ifs <;>
    first
      | (rw [citesCount_singleton]
         by_cases hc : (Diag.invalidAriaPropsOnTag (scanProps cfg t props w).1 t false).cites.contains n = true
         · rw [if_pos hc]
           exact count_pos_of_contains n _ hc
         · rw [if_neg hc]
           exact Nat.zero_le _)
      | (rw [citesCount_singleton]
         by_cases hc : (Diag.invalidAriaPropsOnTag (scanProps cfg t props w).1 t true).cites.contains n = true
         · rw [if_pos hc]
           exact count_pos_of_contains n _ hc
         · rw [if_neg hc]
           exact Nat.zero_le _)
      | exact Nat.zero_le _

theorem call_charge (cfg : Cfg) (t : String) (props : List String) (w : WarnedCache)
    (n : String) :
    citesCount n (validateProperties cfg t props w).2 ≤ 1 ∧
    (1 ≤ citesCount n (validateProperties cfg t props w).2 →
      warnedTrue (validateProperties cfg t props w).1 n = true) ∧
    (warnedTrue w n = true → citesCount n (validateProperties cfg t props w).2 = 0) ∧
    (warnedTrue w n = true → warnedTrue (validateProperties cfg t props w).1 n = true) := by
  by_cases hcust : cfg.isCustomComponent t props = true
  · simp [validateProperties, hcust, citesCount]
  · have hval : validateProperties cfg t props w = warnInvalidARIAProps cfg t props w := by
      simp [validateProperties, hcust]
    rw [hval, warnInvalidARIAProps_cache, warnInvalidARIAProps_diags, citesCount_append]
    have hch := scanProps_charge cfg t n props w
    have hb := batch_citesCount_le cfg t n props w
    refine ⟨?_, ?_, ?_, ?_⟩
    · omega
    · intro h1
      exact hch.2.1 (by omega)
    · intro hw
      have h0 := hch.2.2 hw
      omega
    · intro hw
      exact scanProps_mono cfg t props w n hw

theorem runCalls_nil (cfg : Cfg) (w : WarnedCache) : runCalls cfg [] w = (w, []) := rfl

theorem runCalls_cons (cfg : Cfg) (c : String × List String)
    (rest : List (String × List String)) (w : WarnedCache) :
    runCalls cfg (c :: rest) w =
      ((runCalls cfg rest (validateProperties cfg c.1 c.2 w).1).1,
        (validateProperties cfg c.1 c.2 w).2 ++
          (runCalls cfg rest (validateProperties cfg c.1 c.2 w).1).2) := rfl

theorem runCalls_charge (cfg : Cfg) (n : String) :
    ∀ (calls : List (String × List String)) (w : WarnedCache),
      citesCount n (runCalls cfg calls w).2 ≤ 1 ∧
      (warnedTrue w n = true → citesCount n (runCalls cfg calls w).2 = 0) ∧
      (warnedTrue w n = true → warnedTrue (runCalls cfg calls w).1 n = true)
  | [], w => by simp [runCalls_nil, citesCount]
  | c :: rest, w => by
      have IH := fun w' => runCalls_charge cfg n rest w'
      have hcall := call_charge cfg c.1 c.2 w n
      rw [runCalls_cons, citesCount_append]
      refine ⟨?_, ?_, ?_⟩
      · by_cases h1 : 1 ≤ citesCount n (validateProperties cfg c.1 c.2 w).2
        · have hw1 := hcall.2.1 h1
          have h0 := (IH (validateProperties cfg c.1 c.2 w).1).2.1 hw1
          have h2 := hcall.1
          omega
        · have h2 := (IH (validateProperties cfg c.1 c.2 w).1).1
          omega
      · intro hw
        have h0 := hcall.2.2.1 hw
        have hw1 := hcall.2.2.2 hw
        have h1 := (IH (validateProperties cfg c.1 c.2 w).1).2.1 hw1
        omega
      · intro hw
        exact (IH (validateProperties cfg c.1 c.2 w).1).2.2 (hcall.2.2.2 hw)

/-! ### The collected list of the scan equals its specification -/

theorem collectible_set_self (cfg : Cfg) (w : WarnedCache) (k : String) :
    collectible cfg (w.set k true) k = false := by
  simp [collectible, warnedTrue_set_self]

theorem collectible_set_ne (cfg : Cfg) (w : WarnedCache) (k m : String) (hkm : k ≠ m) :
    collectible cfg (w.set k true) m = collectible cfg w m := by
  simp [collectible, warnedTrue_set_other w k m true hkm]

theorem collectedSpec_congr (cfg : Cfg) :
    ∀ (l : List String) (w1 w2 : WarnedCache),
      (∀ m, collectible cfg w1 m = collectible cfg w2 m) →
      collectedSpec cfg l w1 = collectedSpec cfg l w2
  | [], _, _, _ => rfl
  | k :: rest, w1, w2, h => by
      have hnext : ∀ m, collectible cfg (w1.set k true) m = collectible cfg (w2.set k true) m := by
        intro m
        by_cases hkm : k = m
        · subst hkm
          rw [collectible_set_self, collectible_set_self]
        · rw [collectible_set_ne cfg w1 k m hkm, collectible_set_ne cfg w2 k m hkm, h m]
      simp only [collectedSpec, h k]
      by_cases hk : collectible cfg w2 k = true
      · rw [if_pos hk, if_pos hk, collectedSpec_congr cfg rest _ _ hnext]
      · rw [if_neg hk, if_neg hk]
        exact collectedSpec_congr cfg rest w1 w2 h

theorem scanProps_inv_eq (cfg : Cfg) (t : String) :
    ∀ (props : List String) (w : WarnedCache),
      (scanProps cfg t props w).1 = collectedSpec cfg props w
  | [], _ => rfl
  | key :: rest, w => by
      rw [scanProps_cons]
      by_cases hcoll : collectible cfg w key = true
      · have hshape : validateProperty cfg t key w = ⟨false, w.set key true, []⟩ :=
          validateProperty_false_shape cfg t key w
            ((validateProperty_isValid_false_iff cfg t key w).mpr hcoll)
        rw [hshape]
        simp only [collectedSpec, hcoll, if_pos, if_neg Bool.false_ne_true]
        rw [scanProps_inv_eq cfg t rest (w.set key true)]
      · have hval : (validateProperty cfg t key w).isValid = true := by
          by_contra hv
          rw [Bool.not_eq_true] at hv
          exact hcoll ((validateProperty_isValid_false_iff cfg t key w).mp hv)
        rw [hval, if_pos rfl, scanProps_inv_eq cfg t rest _,
          collectedSpec_congr cfg rest _ w (validateProperty_collectible_stable cfg t key w hval)]
        simp only [collectedSpec]
        rw [if_neg hcoll]

/-! ### Names matching no pattern, and exact canonical names, are inert -/

theorem scanProps_inert (cfg : Cfg) (t n : String)
    (hn : ∀ w', validateProperty cfg t n w' = ⟨true, w', []⟩) :
    ∀ (props : List String) (w : WarnedCache),
      (scanProps cfg t props w).1.contains n = false ∧
      (∀ d ∈ (scanProps cfg t props w).2.2, d.cites.contains n = false)
  | [], w => by simp [scanProps_nil]
  | key :: rest, w => by
      rw [scanProps_cons]
      have IH := scanProps_inert cfg t n hn rest
      by_cases hkey : key = n
      · subst hkey
        rw [hn w]
        simp only [List.nil_append]
        exact ⟨(IH w).1, (IH w).2⟩
      · constructor
        · by_cases hval : (validateProperty cfg t key w).isValid = true
          · rw [hval, if_pos rfl]
            exact (IH _).1
          · rw [Bool.not_eq_true] at hval
            rw [hval, if_neg Bool.false_ne_true]
            have h1 := (IH (validateProperty cfg t key w).cache).1
            have hnk : ¬n = key := fun hx => hkey hx.symm
            simp only [List.contains_cons, h1, Bool.or_false]
            simp [hkey, hnk]
        · intro d hd
          rcases List.mem_append.mp hd with hd | hd
          · rw [validateProperty_diags_cites cfg t key w d hd]
            have hnk : ¬n = key := fun h => hkey h.symm
            simpa using hnk
          · exact (IH _).2 d hd

/-! ### Cache growth by appending true-valued entries -/

theorem validateProperty_cache_ext (cfg : Cfg) (t name : String) (w : WarnedCache)
    (h : ∀ p ∈ w, p.2 = true) :
    ∃ ext, (validateProperty cfg t name w).cache = w ++ ext ∧ ∀ p ∈ ext, p.2 = true := by
  have hset : ∀ (hc : (validateProperty cfg t name w).cache = w.set name true),
      ∃ ext, (validateProperty cfg t name w).cache = w ++ ext ∧ ∀ p ∈ ext, p.2 = true := by
    intro hc
    rcases set_true_of_allTrue w name h with h1 | h1
    · exact ⟨[], by rw [hc, h1, List.append_nil], by simp⟩
    · exact ⟨[(name, true)], by rw [hc, h1], by simp⟩
  rcases validateProperty_cases cfg t name w with hc | hc | hc | hc | hc
  · exact ⟨[], by rw [hc, List.append_nil], by simp⟩
  · exact hset (by rw [hc])
  · exact hset (by rw [hc])
  · exact hset (by rw [hc])
  · exact hset (by rw [hc])

theorem scanProps_cache_ext (cfg : Cfg) (t : String) :
    ∀ (props : List String) (w : WarnedCache), (∀ p ∈ w, p.2 = true) →
      ∃ ext, (scanProps cfg t props w).2.1 = w ++ ext ∧ ∀ p ∈ ext, p.2 = true
  | [], w, _ => ⟨[], by rw [scanProps_nil, List.append_nil], by simp⟩
  | key :: rest, w, h => by
      rw [scanProps_cons]
      obtain ⟨e1, he1, ha1⟩ := validateProperty_cache_ext cfg t key w h
      have hall : ∀ p ∈ (validateProperty cfg t key w).cache, p.2 = true := by
        intro p hp
        rw [he1] at hp
        rcases List.mem_append.mp hp with hp | hp
        · exact h p hp
        · exact ha1 p hp
      obtain ⟨e2, he2, ha2⟩ := scanProps_cache_ext cfg t rest _ hall
      refine ⟨e1 ++ e2, ?_, ?_⟩
      · rw [he2, he1, List.append_assoc]
      · intro p hp
        rcases List.mem_append.mp hp with hp | hp
        · exact ha1 p hp
        · exact ha2 p hp

theorem validateProperties_cache_ext (cfg : Cfg) (t : String) (props : List String)
    (w : WarnedCache) (h : ∀ p ∈ w, p.2 = true) :
    ∃ ext, (validateProperties cfg t props w).1 = w ++ ext ∧ ∀ p ∈ ext, p.2 = true := by
  by_cases hcust : cfg.isCustomComponent t props = true
  · exact ⟨[], by simp [validateProperties, hcust], by simp⟩
  · have hval : (validateProperties cfg t props w).1 = (scanProps cfg t props w).2.1 := by
      simp [validateProperties, hcust, warnInvalidARIAProps_cache]
    rw [hval]
    exact scanProps_cache_ext cfg t props w h

theorem runCalls_allTrue (cfg : Cfg) :
    ∀ (calls : List (String × List String)) (w : WarnedCache), (∀ p ∈ w, p.2 = true) →
      ∀ p ∈ (runCalls cfg calls w).1, p.2 = true
  | [], w, h => by simpa [runCalls_nil] using h
  | c :: rest, w, h => by
      rw [runCalls_cons]
      obtain ⟨e1, he1, ha1⟩ := validateProperties_cache_ext cfg c.1 c.2 w h
      have hall : ∀ p ∈ (validateProperties cfg c.1 c.2 w).1, p.2 = true := by
        intro p hp
        rw [he1] at hp
        rcases List.mem_append.mp hp with hp | hp
        · exact h p hp
        · exact ha1 p hp
      exact runCalls_allTrue cfg rest _ hall

/-! ### Claim theorems -/

/-- C1: for every distinct authored attribute name, across all `validate`
calls within one process lifetime (a sequence of calls starting from the
empty cache), at most one emitted diagnostic cites that name as the
offending name; in particular a second call with a previously-reported
unknown name emits no diagnostic for it. -/
theorem C1_at_most_one_diagnostic_per_name (cfg : Cfg)
    (calls : List (String × List String)) (n : String) :
    citesCount n (runCalls cfg calls []).2 ≤ 1 :=
  (runCalls_charge cfg n calls []).1

/-- C2: on a non-custom element, the batched diagnostics of one `validate`
call are exactly one `invalidAriaPropsOnTag` report listing the collectible
names (hyphenated-pattern names whose lowercased form is unknown and that
are not already warned) in first-seen order, phrased singular for one name
and plural for several, and no batched diagnostic when no name was
collected; the message renders the names comma-separated as backtick-quoted
tokens. -/
theorem C2_batched_unknown_report (cfg : Cfg) (t : String) (props : List String)
    (w : WarnedCache) (hcustom : cfg.isCustomComponent t props = false) :
    (validateProperties cfg t props w).2.filter Diag.isBatch =
      (if collectedSpec cfg props w = [] then []
       else [Diag.invalidAriaPropsOnTag (collectedSpec cfg props w) t
              (decide (1 < (collectedSpec cfg props w).length))]) ∧
    (∀ ps b, (Diag.invalidAriaPropsOnTag ps t b).message =
      "Invalid aria prop" ++ (if b then "s " else " ") ++
        String.intercalate ", " (ps.map (fun p => "`" ++ p ++ "`")) ++
        " on <" ++ t ++ "> tag. For details, see https://fb.me/invalid-aria-prop") := by
  constructor
  · have hval : validateProperties cfg t props w = warnInvalidARIAProps cfg t props w := by
      simp [validateProperties, hcustom]
    rw [hval, warnInvalidARIAProps_diags, List.filter_append]
    have hscan : (scanProps cfg t props w).2.2.filter Diag.isBatch = [] :=
      List.filter_eq_nil_iff.mpr (fun d hd => by
        simp [scanProps_diags_not_batch cfg t props w d hd])
    rw [hscan, List.nil_append, scanProps_inv_eq cfg t props w]
    by_cases h1 : (collectedSpec cfg props w).length = 1
    · have hne : collectedSpec cfg props w ≠ [] := by
        intro hx
        rw [hx] at h1
        simp at h1
      have hdec : decide (1 < (collectedSpec cfg props w).length) = false := by
        simp [h1]
      rw [if_pos h1, if_neg hne, hdec]
      simp [Diag.isBatch]
    · by_cases h2 : (collectedSpec cfg props w).length > 1
      · have hne : collectedSpec cfg props w ≠ [] := by
          intro hx
          rw [hx] at h2
          simp at h2
        have hdec : decide (1 < (collectedSpec cfg props w).length) = true := by
          simp [h2]
        rw [if_neg h1, if_pos h2, if_neg hne, hdec]
        simp [Diag.isBatch]
      · have h0 : (collectedSpec cfg props w).length = 0 := by omega
        have hnil : collectedSpec cfg props w = [] := List.length_eq_zero.mp h0
        rw [if_neg h1, if_neg h2, if_pos hnil]
        simp
  · intro ps b
    rfl

/-- C2 witness: two unrecognized hyphenated names on a `div` produce exactly
one plural batched report naming both in order. -/
theorem C2_batched_unknown_report_witness :
    (validateProperties specCfg "div" ["aria-foo", "aria-bar"] []).2.filter Diag.isBatch =
      [Diag.invalidAriaPropsOnTag ["aria-foo", "aria-bar"] "div" true] := by
  have h := (C2_batched_unknown_report specCfg "div" ["aria-foo", "aria-bar"] []
    (by decide)).1
  rw [h]
  decide

/-- C3 counterexample: contrary to the claim, the per-name step already
marks an unknown hyphenated name warned the moment it collects it (before
any batched message is emitted): on `aria-foo` the per-name step returns
`false` (collected), emits nothing, and the cache already holds the name. -/
theorem C3_marks_at_detection_counterexample :
    (validateProperty specCfg "div" "aria-foo" []).isValid = false ∧
    (validateProperty specCfg "div" "aria-foo" []).diags = [] ∧
    warnedTrue (validateProperty specCfg "div" "aria-foo" []).cache "aria-foo" = true := by
  decide

/-- C3 amended: when a not-yet-warned name matches the hyphenated pattern
and its lowercased form is unknown, the per-name step collects it for the
batched report (returns `false`), emits no diagnostic, and marks it warned
immediately at that point; the batched emission of step 3 performs no
further cache update (the cache after `warnInvalidARIAProps` is exactly the
cache after the scan). -/
theorem C3_marks_at_detection_amended (cfg : Cfg) (t name : String) (w : WarnedCache)
    (h1 : warnedTrue w name = false) (h2 : rARIATest cfg name = true)
    (h3 : cfg.validAria (lowerStr name) = false) :
    validateProperty cfg t name w = ⟨false, w.set name true, []⟩ ∧
    (∀ props w2, (warnInvalidARIAProps cfg t props w2).1 = (scanProps cfg t props w2).2.1) :=
  ⟨validateProperty_collect cfg t name w h1 h2 h3,
   fun props w2 => warnInvalidARIAProps_cache cfg t props w2⟩

/-- C3 amended witness: concrete run on `aria-foo` from the empty cache. -/
theorem C3_marks_at_detection_amended_witness :
    validateProperty specCfg "div" "aria-foo" [] = ⟨false, [("aria-foo", true)], []⟩ :=
  ((C3_marks_at_detection_amended specCfg "div" "aria-foo" []
    (by decide) (by decide) (by decide)).1).trans (by decide)

/-- C4: a not-yet-warned name matching the camel-case pattern whose derived
canonical form is unknown gets the "Invalid ARIA attribute" diagnostic
naming the authored name, is marked warned, and is returned as valid
(`isValid = true`), so the hyphenated branch is not evaluated and the name
is not collected into the batched report. -/
theorem C4_camel_unknown_warns (cfg : Cfg) (t name : String) (w : WarnedCache)
    (h1 : warnedTrue w name = false) (h2 : rARIACamelTest cfg name = true)
    (h3 : cfg.validAria ("aria-" ++ lowerStr (dropStr 4 name)) = false) :
    validateProperty cfg t name w =
      ⟨true, w.set name true, [Diag.invalidARIAAttribute name]⟩ :=
  validateProperty_camelUnknown cfg t name w h1 h2 h3

/-- C4 witness: `ariaFooBar` (canonical form `aria-foobar`, unknown). -/
theorem C4_camel_unknown_warns_witness :
    validateProperty specCfg "div" "ariaFooBar" [] =
      ⟨true, [("ariaFooBar", true)], [Diag.invalidARIAAttribute "ariaFooBar"]⟩ :=
  (C4_camel_unknown_warns specCfg "div" "ariaFooBar" []
    (by decide) (by decide) (by decide)).trans (by decide)

/-- C5: a not-yet-warned name matching the hyphenated pattern whose
lowercased form is known but differs from the authored name gets exactly one
"Did you mean" diagnostic naming the authored name and the lowercased
suggestion, and is marked warned. -/
theorem C5_hyphen_case_suggestion (cfg : Cfg) (t name : String) (w : WarnedCache)
    (h1 : warnedTrue w name = false) (h2 : rARIATest cfg name = true)
    (h3 : cfg.validAria (lowerStr name) = true) (h4 : lowerStr name ≠ name) :
    validateProperty cfg t name w =
      ⟨true, w.set name true, [Diag.unknownARIADidYouMean name (lowerStr name)]⟩ :=
  validateProperty_hyphenSuggest cfg t name w h1 h2 h3 h4

/-- C5 witness: `aria-Hidden` lowercases to the known `aria-hidden`. -/
theorem C5_hyphen_case_suggestion_witness :
    validateProperty specCfg "div" "aria-Hidden" [] =
      ⟨true, [("aria-Hidden", true)],
        [Diag.unknownARIADidYouMean "aria-Hidden" "aria-hidden"]⟩ :=
  (C5_hyphen_case_suggestion specCfg "div" "aria-Hidden" []
    (by decide) (by decide) (by decide) (by decide)).trans (by decide)

/-- C6: when the classifier reports the element custom, `validate` emits
zero diagnostics and leaves the cache unchanged, whatever the properties. -/
theorem C6_custom_element_bypass (cfg : Cfg) (t : String) (props : List String)
    (w : WarnedCache) (h : cfg.isCustomComponent t props = true) :
    validateProperties cfg t props w = (w, []) := by
  simp [validateProperties, h]

/-- C6 witness: a hyphenated tag name is custom under the spec-modelled
classifier, so even an unknown ARIA name produces nothing. -/
theorem C6_custom_element_bypass_witness :
    validateProperties specCfg "x-widget" ["aria-foo"] [] = ([], []) :=
  C6_custom_element_bypass specCfg "x-widget" ["aria-foo"] [] (by decide)

/-- C7: `validate` emits no diagnostic citing a name that matches neither
pattern, nor one citing a name supplied exactly as a canonical (lowercase
hyphenated, known) member of the attribute set. -/
theorem C7_silent_names (cfg : Cfg) (t : String) (props : List String)
    (w : WarnedCache) (n : String)
    (h : (rARIACamelTest cfg n = false ∧ rARIATest cfg n = false) ∨
      (rARIATest cfg n = true ∧ cfg.validAria n = true ∧ lowerStr n = n)) :
    (validateProperties cfg t props w).2.all (fun d => !(d.cites.contains n)) = true := by
  have hn : ∀ w', validateProperty cfg t n w' = ⟨true, w', []⟩ := by
    intro w'
    rcases h with ⟨hp1, hp2⟩ | ⟨hp1, hp2, hp3⟩
    · exact validateProperty_noPattern cfg t n w' hp1 hp2
    · exact validateProperty_canonical cfg t n w' hp1 hp2 hp3
  by_cases hcust : cfg.isCustomComponent t props = true
  · simp [validateProperties, hcust]
  · have hval : validateProperties cfg t props w = warnInvalidARIAProps cfg t props w := by
      simp [validateProperties, hcust]
    have hinert := scanProps_inert cfg t n hn props w
    rw [hval, warnInvalidARIAProps_diags, List.all_eq_true]
    intro d hd
    rcases List.mem_append.mp hd with hd | hd
    · rw [hinert.2 d hd]
      rfl
    · have hcite : d.cites = (scanProps cfg t props w).1 := by
        split at hd
        · simpa using congrArg Diag.cites (List.mem_singleton.mp hd)
        · split at hd
          · simpa using congrArg Diag.cites (List.mem_singleton.mp hd)
          · cases hd
      rw [hcite, hinert.1]
      rfl

/-- C7 witness: `href` matches neither pattern, and no diagnostic of the
call cites it. -/
theorem C7_silent_names_witness :
    (validateProperties specCfg "div" ["href", "aria-hidden"] []).2.all
      (fun d => !(d.cites.contains "href")) = true :=
  C7_silent_names specCfg "div" ["href", "aria-hidden"] [] "href"
    (Or.inl ⟨by decide, by decide⟩)

/-- C8: `validate` always completes with a plain result (no error channel
exists in the embedding: the function is total and its codomain is just the
updated cache and the emitted diagnostics — the properties mapping is not
part of the output and cannot be altered), and its cache only ever keeps
previously-true entries true. -/
theorem C8_total_and_cache_monotone (cfg : Cfg) (t : String) (props : List String)
    (w : WarnedCache) :
    (∃ w2 ds, validateProperties cfg t props w = (w2, ds)) ∧
    (∀ m, warnedTrue w m = true → warnedTrue (validateProperties cfg t props w).1 m = true) :=
  ⟨⟨(validateProperties cfg t props w).1, (validateProperties cfg t props w).2, rfl⟩,
   fun m hm => (call_charge cfg t props w m).2.2.2 hm⟩

/-- C8 witness: a previously-warned entry survives a later call. -/
theorem C8_total_and_cache_monotone_witness :
    warnedTrue (validateProperties specCfg "div" ["aria-foo"] [("x", true)]).1 "x" = true :=
  (C8_total_and_cache_monotone specCfg "div" ["aria-foo"] [("x", true)]).2 "x" (by decide)

/-- C9: from the empty cache of process start, every reachable cache holds
only `true` markers, each further `validate` call only appends entries
(never removes or overwrites one), and on such caches the step-2a check for
a true marker coincides with mere key presence. -/
theorem C9_cache_monotone_growth (cfg : Cfg) (calls : List (String × List String)) :
    (∀ p ∈ (runCalls cfg calls []).1, p.2 = true) ∧
    (∀ t props, ∃ ext,
        (validateProperties cfg t props (runCalls cfg calls []).1).1 =
          (runCalls cfg calls []).1 ++ ext ∧ ∀ p ∈ ext, p.2 = true) ∧
    (∀ n, warnedTrue (runCalls cfg calls []).1 n =
        (WarnedCache.lookup (runCalls cfg calls []).1 n).isSome) := by
  have hall : ∀ p ∈ (runCalls cfg calls []).1, p.2 = true :=
    runCalls_allTrue cfg calls [] (by simp)
  exact ⟨hall,
    fun t props => validateProperties_cache_ext cfg t props _ hall,
    fun n => warnedTrue_eq_isSome_of_allTrue _ n hall⟩

/-- C10: the Stack-mode hooks validate only a non-null element whose `type`
is a string; a null element or a non-string `type` yields no diagnostics
and leaves the cache unchanged. -/
theorem C10_stack_hooks_guard (cfg : Cfg) (w : WarnedCache) :
    (onBeforeMountComponent cfg none w = (w, []) ∧
      onBeforeUpdateComponent cfg none w = (w, [])) ∧
    (∀ props, onBeforeMountComponent cfg (some ⟨ElemType.other, props⟩) w = (w, []) ∧
      onBeforeUpdateComponent cfg (some ⟨ElemType.other, props⟩) w = (w, [])) ∧
    (∀ s props,
      onBeforeMountComponent cfg (some ⟨ElemType.str s, props⟩) w =
        validateProperties cfg s props w ∧
      onBeforeUpdateComponent cfg (some ⟨ElemType.str s, props⟩) w =
        validateProperties cfg s props w) :=
  ⟨⟨rfl, rfl⟩, fun _ => ⟨rfl, rfl⟩, fun _ _ => ⟨rfl, rfl⟩⟩

end ReactDOMInvalidARIAHook
